import Mathlib

/-!
Verification of the report classification and aggregation pipeline of the
CAIC field-report aggregator (`src/server/lib/processing.ts`, data shapes
from `src/shared/schema.ts`).

Strings are embedded as `List Char`.  JavaScript `null` and `undefined`
are both modelled as `Option.none` (the code only ever distinguishes them
from actual values through truthiness tests, which treat the two alike).
JavaScript string helpers (`trim`, `toUpperCase`, `toLowerCase`,
`includes`, `startsWith`, `replaceAll`) are embedded as structurally
recursive functions below; uppercase and lowercase agree with JavaScript
on ASCII, which is all the recognition tokens use.
All definitions are executable and kernel-reducible, so concrete runs
are settled by `decide`.
-/

abbrev Str := List Char

/-- The character list of a string literal. -/
def strOf (s : String) : Str := s.data

/-- Embeds JavaScript `String.prototype.trim` (strip leading and trailing
whitespace). -/
def trimStr (s : Str) : Str :=
  ((s.dropWhile Char.isWhitespace).reverse.dropWhile Char.isWhitespace).reverse

/-- Embeds `String.prototype.toUpperCase` (ASCII). -/
def toUpperStr (s : Str) : Str := s.map Char.toUpper

/-- Embeds `String.prototype.toLowerCase` (ASCII). -/
def toLowerStr (s : Str) : Str := s.map Char.toLower

/-- Embeds `String.prototype.includes`: `needle` occurs as a contiguous
substring of the second argument. -/
def containsSub (needle : Str) : Str → Bool
  | [] => needle.isEmpty
  | c :: rest => needle.isPrefixOf (c :: rest) || containsSub needle rest

/-- One step of `String.prototype.replaceAll` with an explicit fuel
argument (structural recursion on the fuel keeps the definition
kernel-reducible).  The fuel is always instantiated with the length of
the subject string, which suffices because every recursive call consumes
at least one character. -/
def replaceAllFuel (pat rep : Str) : Nat → Str → Str
  | 0, s => s
  | _ + 1, [] => []
  | n + 1, c :: rest =>
    if !pat.isEmpty && pat.isPrefixOf (c :: rest) then
      rep ++ replaceAllFuel pat rep n (List.drop (pat.length - 1) rest)
    else
      c :: replaceAllFuel pat rep n rest

/-- Embeds `String.prototype.replaceAll`: replace every non-overlapping
occurrence of `pat` by `rep`, scanning left to right (the replacement
text is not rescanned).  The code only ever calls it with non-empty
patterns. -/
def replaceAllStr (pat rep s : Str) : Str := replaceAllFuel pat rep s.length s

/-! ## Elevation classifier (`mapElevation`, processing.ts lines 3-46) -/

inductive ElevBandK where
  | aboveTreeline
  | nearTreeline
  | belowTreeline
deriving DecidableEq, Repr

/-- The entity-decoding / normalisation pipeline of `mapElevation`:
replace `&#62;`, `&#60;`, `&gt;`, `&lt;` (in that order) by `>` / `<`,
then trim, then uppercase. -/
def decodeElev (s : Str) : Str :=
  toUpperStr (trimStr
    (replaceAllStr (strOf "&lt;") (strOf "<")
      (replaceAllStr (strOf "&gt;") (strOf ">")
        (replaceAllStr (strOf "&#60;") (strOf "<")
          (replaceAllStr (strOf "&#62;") (strOf ">") s)))))

/-- First rule of `mapElevation`: above-treeline markers. -/
def aboveCond (d : Str) : Bool :=
  containsSub (strOf ">TL") d || (strOf ">").isPrefixOf d ||
    containsSub (strOf "ATL") d || containsSub (strOf "ABOVE") d ||
    containsSub (strOf "ALPINE") d

/-- Second rule of `mapElevation`: below-treeline markers. -/
def belowCond (d : Str) : Bool :=
  containsSub (strOf "<TL") d || (strOf "<").isPrefixOf d ||
    containsSub (strOf "BTL") d || containsSub (strOf "BELOW") d ||
    containsSub (strOf "SUB") d

/-- Third rule of `mapElevation`: near-treeline markers. -/
def nearCond (d : Str) : Bool :=
  decide (d = strOf "TL") || containsSub (strOf "NTL") d ||
    containsSub (strOf "NEAR") d || containsSub (strOf "TREELINE") d

/-- Embeds `mapElevation`.  A `null`/`undefined`/empty input is falsy and
returns `null` (here `none`); otherwise the decoded, trimmed, uppercased
string is tested against the three rules in order. -/
def mapElevation (elevation : Option Str) : Option ElevBandK :=
  match elevation with
  | none => none
  | some s =>
    if s = [] then none
    else
      let decoded := decodeElev s
      if aboveCond decoded then some .aboveTreeline
      else if belowCond decoded then some .belowTreeline
      else if nearCond decoded then some .nearTreeline
      else none

/-! ## Aspect classifier (`mapAspect`, processing.ts lines 48-71) -/

inductive AspectK where
  | N
  | NE
  | E
  | SE
  | S
  | SW
  | W
  | NW
deriving DecidableEq, Repr, Fintype

/-- The letter code of a compass aspect, as written in the source's
`twoLetterAspects` / `singleLetterAspects` arrays. -/
def aspectCode : AspectK → Str
  | .N => strOf "N"
  | .NE => strOf "NE"
  | .E => strOf "E"
  | .SE => strOf "SE"
  | .S => strOf "S"
  | .SW => strOf "SW"
  | .W => strOf "W"
  | .NW => strOf "NW"

/-- JavaScript regex word characters: `\w` is `[A-Za-z0-9_]`. -/
def isWordChar (c : Char) : Bool := c.isAlpha || c.isDigit || c = '_'

/-- Boundary test against the optional preceding character: the position
before the match must be the start of the string or a non-word
character (`isW` names the word-character class). -/
def okBefore (isW : Char → Bool) : Option Char → Bool
  | none => true
  | some p => !isW p

/-- Boundary test after the match: the remainder must be empty or start
with a non-word character. -/
def okAfterHead (isW : Char → Bool) (l : Str) : Bool :=
  match l.head? with
  | none => true
  | some n => !isW n

/-- Scans the subject string for an occurrence of `code` that is bounded
on both sides by the string edge or a character outside the class `isW`.
`prev` is the character immediately before the current position (`none`
at the start of the string).  Because the codes consist solely of word
characters, this is exactly the JavaScript regex test `\b code \b`. -/
def scanWord (isW : Char → Bool) (code : Str) : Option Char → Str → Bool
  | _, [] => false
  | prev, c :: rest =>
    (okBefore isW prev && code.isPrefixOf (c :: rest) &&
      okAfterHead isW (List.drop code.length (c :: rest))) ||
    scanWord isW code (some c) rest

/-- Embeds `new RegExp("\\b" + a + "\\b").test(upper)` for the letter-only
aspect codes. -/
def wordBoundaryTest (code s : Str) : Bool := scanWord isWordChar code none s

/-- The order in which `mapAspect` tries the codes: the `twoLetterAspects`
loop runs before the `singleLetterAspects` loop, each in array order. -/
def aspectOrder : List AspectK := [.NE, .NW, .SE, .SW, .N, .E, .S, .W]

/-- The per-code test in `mapAspect`'s loops:
`upper === a || regex.test(upper)`. -/
def aspectHit (u : Str) (a : AspectK) : Bool :=
  decide (u = aspectCode a) || wordBoundaryTest (aspectCode a) u

/-- Embeds `mapAspect`.  A falsy input returns `null`; otherwise the
uppercased, trimmed input is tested against the codes in
`aspectOrder`, first hit wins. -/
def mapAspect (aspect : Option Str) : Option AspectK :=
  match aspect with
  | none => none
  | some s =>
    if s = [] then none
    else
      let upper := trimStr (toUpperStr s)
      aspectOrder.find? (aspectHit upper)

/-! ## Instability classifier (`mapInstabilityLevel`, processing.ts
lines 73-99) -/

inductive LevelK where
  | None
  | Minor
  | Moderate
  | Major
  | Severe
deriving DecidableEq, Repr

/-- Embeds `mapInstabilityLevel`: falsy input defaults to `None`;
otherwise the lowercased input is tested for keyword containment in
severity order, first match wins, with `None` as the final default. -/
def mapInstabilityLevel (value : Option Str) : LevelK :=
  match value with
  | none => .None
  | some s =>
    if s = [] then .None
    else
      let lower := toLowerStr s
      if containsSub (strOf "none") lower || decide (lower = strOf "no") ||
          decide (lower = []) then .None
      else if containsSub (strOf "minor") lower ||
          containsSub (strOf "slight") lower ||
          containsSub (strOf "light") lower then .Minor
      else if containsSub (strOf "moderate") lower ||
          containsSub (strOf "medium") lower then .Moderate
      else if containsSub (strOf "major") lower ||
          containsSub (strOf "heavy") lower ||
          containsSub (strOf "significant") lower then .Major
      else if containsSub (strOf "severe") lower ||
          containsSub (strOf "extreme") lower ||
          containsSub (strOf "widespread") lower then .Severe
      else .None

/-! ## Data shapes (`src/shared/schema.ts`)

Only the fields the processing core reads are carried; the remaining
optional schema fields (`type_code`, `trigger_code`, sizes, dates,
weather measurements, ...) are never touched by `processing.ts`.
Numbers that the core manipulates are integers in every claim under
study, so they are embedded as `Int`. -/

structure AvalancheObservation where
  aspect : Option Str
  elevation : Option Str
deriving DecidableEq, Repr

structure SnowpackObservation where
  cracking : Option Str
  collapsing : Option Str
  comments : Option Str
deriving DecidableEq, Repr

structure WeatherObservation where
  comments : Option Str
deriving DecidableEq, Repr

structure SnowpackDetail where
  description : Option Str
deriving DecidableEq, Repr

structure WeatherDetail where
  description : Option Str
deriving DecidableEq, Repr

structure FieldReport where
  id : Int
  description : Option Str
  observation_summary : Option Str
  avalanche_observations_count : Option Int
  avalanche_observations : Option (List AvalancheObservation)
  snowpack_observations : Option (List SnowpackObservation)
  weather_observations : Option (List WeatherObservation)
  snowpack_detail : Option SnowpackDetail
  weather_detail : Option WeatherDetail
deriving DecidableEq, Repr

/-- A report with every optional field missing (only the required `id`). -/
def emptyReport : FieldReport :=
  ⟨0, none, none, none, none, none, none, none, none⟩

/-! ## Aggregated snapshot (`AggregatedData` in `src/shared/schema.ts`) -/

@[ext]
structure ElevationBand where
  aboveTreeline : Nat
  nearTreeline : Nat
  belowTreeline : Nat
deriving DecidableEq, Repr

@[ext]
structure AspectCounts where
  N : Nat
  NE : Nat
  E : Nat
  SE : Nat
  S : Nat
  SW : Nat
  W : Nat
  NW : Nat
deriving DecidableEq, Repr

@[ext]
structure InstabilityCounts where
  None : Nat
  Minor : Nat
  Moderate : Nat
  Major : Nat
  Severe : Nat
deriving DecidableEq, Repr

@[ext]
structure AggregatedData where
  totalReports : Nat
  reportsWithAvalanches : Nat
  totalAvalanches : Int
  avalanchesByElevation : ElevationBand
  avalanchesByAspect : AspectCounts
  crackingCounts : InstabilityCounts
  collapsingCounts : InstabilityCounts
deriving DecidableEq, Repr

/-! ## Aggregation reducer (`aggregateReports`, processing.ts
lines 101-177) -/

/-- JavaScript `a || b` on an optional number: `null`, `undefined` and
`0` are falsy. -/
def jsNumOr (a : Option Int) (b : Int) : Int :=
  match a with
  | none => b
  | some x => if x = 0 then b else x

/-- The avalanche count of one report:
`report.avalanche_observations?.length || report.avalanche_observations_count || 0`.
A present, non-empty observation list wins (a positive length is
truthy); otherwise the count field applies, with `0` as the final
fallback. -/
def avalancheCountOf (r : FieldReport) : Int :=
  match r.avalanche_observations with
  | some l =>
    if l.length ≠ 0 then (l.length : Int)
    else jsNumOr r.avalanche_observations_count 0
  | none => jsNumOr r.avalanche_observations_count 0

/-- `aggregated.avalanchesByElevation[elevation]++`. -/
def bumpElev (e : ElevationBand) : ElevBandK → ElevationBand
  | .aboveTreeline => { e with aboveTreeline := e.aboveTreeline + 1 }
  | .nearTreeline => { e with nearTreeline := e.nearTreeline + 1 }
  | .belowTreeline => { e with belowTreeline := e.belowTreeline + 1 }

/-- `aggregated.avalanchesByAspect[aspect]++`. -/
def bumpAspect (e : AspectCounts) : AspectK → AspectCounts
  | .N => { e with N := e.N + 1 }
  | .NE => { e with NE := e.NE + 1 }
  | .E => { e with E := e.E + 1 }
  | .SE => { e with SE := e.SE + 1 }
  | .S => { e with S := e.S + 1 }
  | .SW => { e with SW := e.SW + 1 }
  | .W => { e with W := e.W + 1 }
  | .NW => { e with NW := e.NW + 1 }

/-- `counts[level]++` for the instability counters. -/
def bumpLevel (e : InstabilityCounts) : LevelK → InstabilityCounts
  | .None => { e with None := e.None + 1 }
  | .Minor => { e with Minor := e.Minor + 1 }
  | .Moderate => { e with Moderate := e.Moderate + 1 }
  | .Major => { e with Major := e.Major + 1 }
  | .Severe => { e with Severe := e.Severe + 1 }

/-- Body of the loop `for (const avy of report.avalanche_observations || [])`:
bump the elevation bucket if the elevation classifies, then the aspect
bucket if the aspect classifies. -/
def avyStep (a : AggregatedData) (avy : AvalancheObservation) : AggregatedData :=
  let a1 :=
    match mapElevation avy.elevation with
    | some b =>
      { a with avalanchesByElevation := bumpElev a.avalanchesByElevation b }
    | none => a
  match mapAspect avy.aspect with
  | some d =>
    { a1 with avalanchesByAspect := bumpAspect a1.avalanchesByAspect d }
  | none => a1

/-- Body of the loop `for (const obs of report.snowpack_observations || [])`:
always bump one cracking bucket and one collapsing bucket. -/
def snowStep (a : AggregatedData) (obs : SnowpackObservation) : AggregatedData :=
  let a1 :=
    { a with crackingCounts :=
        bumpLevel a.crackingCounts (mapInstabilityLevel obs.cracking) }
  { a1 with collapsingCounts :=
      bumpLevel a1.collapsingCounts (mapInstabilityLevel obs.collapsing) }

/-- The body of `aggregateReports`'s outer loop for one report. -/
def stepReport (a : AggregatedData) (r : FieldReport) : AggregatedData :=
  let cnt := avalancheCountOf r
  let a1 :=
    if cnt > 0 then
      { a with reportsWithAvalanches := a.reportsWithAvalanches + 1 }
    else a
  let a2 := { a1 with totalAvalanches := a1.totalAvalanches + cnt }
  let a3 := (r.avalanche_observations.getD []).foldl avyStep a2
  let a4 := (r.snowpack_observations.getD []).foldl snowStep a3
  if r.snowpack_observations.getD [] = [] then
    { a4 with
      crackingCounts := bumpLevel a4.crackingCounts .None,
      collapsingCounts := bumpLevel a4.collapsingCounts .None }
  else a4

/-- The freshly initialised snapshot: every counter zero and
`totalReports` set to the length of the input list. -/
def initAgg (n : Nat) : AggregatedData :=
  ⟨n, 0, 0, ⟨0, 0, 0⟩, ⟨0, 0, 0, 0, 0, 0, 0, 0⟩, ⟨0, 0, 0, 0, 0⟩,
    ⟨0, 0, 0, 0, 0⟩⟩

/-- Embeds `aggregateReports`: initialise the snapshot, then run the
report loop left to right. -/
def aggregateReports (reports : List FieldReport) : AggregatedData :=
  reports.foldl stepReport (initAgg reports.length)

/-! ## Text collector (`collectTexts`, processing.ts lines 179-213) -/

/-- JavaScript `a || b` on optional strings: `null`, `undefined` and the
empty string are falsy. -/
def jsStrOr (a b : Option Str) : Option Str :=
  match a with
  | none => b
  | some s => if s = [] then b else some s

/-- Embeds `pushIfPresent`: append the trimmed text when the trimmed
text is a non-empty string. -/
def pushIfPresent (arr : List Str) (text : Option Str) : List Str :=
  match text with
  | none => arr
  | some t => if trimStr t = [] then arr else arr ++ [trimStr t]

/-- Embeds `extractComments` over any observation shape carrying an
optional `comments` field (the source uses a structural type
`Array<{ comments?: string | null }>`); `getComments` projects that
field. -/
def extractComments {α : Type} (getComments : α → Option Str)
    (arr : List Str) (observations : Option (List α)) : List Str :=
  (observations.getD []).foldl (fun acc o => pushIfPresent acc (getComments o)) arr

structure CollectedTexts where
  observations : List Str
  snowpack : List Str
  weather : List Str
deriving DecidableEq, Repr

/-- Body of the `collectTexts` loop for one report. -/
def collectStep (acc : CollectedTexts) (r : FieldReport) : CollectedTexts :=
  let observations :=
    pushIfPresent acc.observations (jsStrOr r.observation_summary r.description)
  let snowpack :=
    extractComments SnowpackObservation.comments
      (pushIfPresent acc.snowpack (r.snowpack_detail.bind SnowpackDetail.description))
      r.snowpack_observations
  let weather :=
    extractComments WeatherObservation.comments
      (pushIfPresent acc.weather (r.weather_detail.bind WeatherDetail.description))
      r.weather_observations
  ⟨observations, snowpack, weather⟩

/-- Embeds `collectTexts`. -/
def collectTexts (reports : List FieldReport) : CollectedTexts :=
  reports.foldl collectStep ⟨[], [], []⟩

/-! ## Proof infrastructure: componentwise addition and per-report
contributions

`aggregateReports` only ever increments counters, so each run
decomposes as the initial snapshot plus a sum of per-report
contributions.  The definitions below name those contributions; the
theorems establish the decomposition. -/

def zeroElev : ElevationBand := ⟨0, 0, 0⟩
def zeroAsp : AspectCounts := ⟨0, 0, 0, 0, 0, 0, 0, 0⟩
def zeroInstab : InstabilityCounts := ⟨0, 0, 0, 0, 0⟩
def zeroAgg : AggregatedData := initAgg 0

def addElev (x y : ElevationBand) : ElevationBand :=
  ⟨x.aboveTreeline + y.aboveTreeline, x.nearTreeline + y.nearTreeline,
    x.belowTreeline + y.belowTreeline⟩

def addAsp (x y : AspectCounts) : AspectCounts :=
  ⟨x.N + y.N, x.NE + y.NE, x.E + y.E, x.SE + y.SE, x.S + y.S, x.SW + y.SW,
    x.W + y.W, x.NW + y.NW⟩

def addInstab (x y : InstabilityCounts) : InstabilityCounts :=
  ⟨x.None + y.None, x.Minor + y.Minor, x.Moderate + y.Moderate,
    x.Major + y.Major, x.Severe + y.Severe⟩

def addAgg (x y : AggregatedData) : AggregatedData :=
  ⟨x.totalReports + y.totalReports,
    x.reportsWithAvalanches + y.reportsWithAvalanches,
    x.totalAvalanches + y.totalAvalanches,
    addElev x.avalanchesByElevation y.avalanchesByElevation,
    addAsp x.avalanchesByAspect y.avalanchesByAspect,
    addInstab x.crackingCounts y.crackingCounts,
    addInstab x.collapsingCounts y.collapsingCounts⟩

def oneElev : ElevBandK → ElevationBand
  | .aboveTreeline => ⟨1, 0, 0⟩
  | .nearTreeline => ⟨0, 1, 0⟩
  | .belowTreeline => ⟨0, 0, 1⟩

def oneAsp : AspectK → AspectCounts
  | .N => ⟨1, 0, 0, 0, 0, 0, 0, 0⟩
  | .NE => ⟨0, 1, 0, 0, 0, 0, 0, 0⟩
  | .E => ⟨0, 0, 1, 0, 0, 0, 0, 0⟩
  | .SE => ⟨0, 0, 0, 1, 0, 0, 0, 0⟩
  | .S => ⟨0, 0, 0, 0, 1, 0, 0, 0⟩
  | .SW => ⟨0, 0, 0, 0, 0, 1, 0, 0⟩
  | .W => ⟨0, 0, 0, 0, 0, 0, 1, 0⟩
  | .NW => ⟨0, 0, 0, 0, 0, 0, 0, 1⟩

def oneInstab : LevelK → InstabilityCounts
  | .None => ⟨1, 0, 0, 0, 0⟩
  | .Minor => ⟨0, 1, 0, 0, 0⟩
  | .Moderate => ⟨0, 0, 1, 0, 0⟩
  | .Major => ⟨0, 0, 0, 1, 0⟩
  | .Severe => ⟨0, 0, 0, 0, 1⟩

/-- Elevation-bucket contribution of one avalanche observation. -/
def perObsElev (o : AvalancheObservation) : ElevationBand :=
  match mapElevation o.elevation with
  | some b => oneElev b
  | none => zeroElev

/-- Aspect-bucket contribution of one avalanche observation. -/
def perObsAsp (o : AvalancheObservation) : AspectCounts :=
  match mapAspect o.aspect with
  | some d => oneAsp d
  | none => zeroAsp

/-- Cracking contribution of one snowpack observation. -/
def perObsCracking (o : SnowpackObservation) : InstabilityCounts :=
  oneInstab (mapInstabilityLevel o.cracking)

/-- Collapsing contribution of one snowpack observation. -/
def perObsCollapsing (o : SnowpackObservation) : InstabilityCounts :=
  oneInstab (mapInstabilityLevel o.collapsing)

def sumElev (l : List ElevationBand) : ElevationBand := l.foldr addElev zeroElev
def sumAsp (l : List AspectCounts) : AspectCounts := l.foldr addAsp zeroAsp
def sumInstab (l : List InstabilityCounts) : InstabilityCounts :=
  l.foldr addInstab zeroInstab
def sumAgg (l : List AggregatedData) : AggregatedData := l.foldr addAgg zeroAgg

/-- The avalanche-observation list the reducer iterates over. -/
def avyObs (r : FieldReport) : List AvalancheObservation :=
  r.avalanche_observations.getD []

/-- The snowpack-observation list the reducer iterates over. -/
def snowObs (r : FieldReport) : List SnowpackObservation :=
  r.snowpack_observations.getD []

/-- The whole contribution of one report to the snapshot (on top of a
`totalReports` of one, which `aggregateReports` accounts for at
initialisation). -/
def reportContrib (r : FieldReport) : AggregatedData :=
  ⟨0,
    if avalancheCountOf r > 0 then 1 else 0,
    avalancheCountOf r,
    sumElev ((avyObs r).map perObsElev),
    sumAsp ((avyObs r).map perObsAsp),
    addInstab (sumInstab ((snowObs r).map perObsCracking))
      (if snowObs r = [] then oneInstab .None else zeroInstab),
    addInstab (sumInstab ((snowObs r).map perObsCollapsing))
      (if snowObs r = [] then oneInstab .None else zeroInstab)⟩

def elevTotal (e : ElevationBand) : Nat :=
  e.aboveTreeline + e.nearTreeline + e.belowTreeline

def aspTotal (e : AspectCounts) : Nat :=
  e.N + e.NE + e.E + e.SE + e.S + e.SW + e.W + e.NW

def instabTotal (e : InstabilityCounts) : Nat :=
  e.None + e.Minor + e.Moderate + e.Major + e.Severe

/-- The bucket of an instability counter selected by a severity level,
as in the source's `counts[level]` indexing. -/
def instabGet (c : InstabilityCounts) : LevelK → Nat
  | .None => c.None
  | .Minor => c.Minor
  | .Moderate => c.Moderate
  | .Major => c.Major
  | .Severe => c.Severe

/-! ## Statement-side definitions taken from the claims -/

/-- The per-report avalanche count exactly as the claim words it: the
length of `avalanche_observations` when that list is present and
non-empty, otherwise `avalanche_observations_count` when present,
otherwise `0`. -/
def claimAvalancheCount (r : FieldReport) : Int :=
  match r.avalanche_observations with
  | some l =>
    if l ≠ [] then (l.length : Int)
    else
      match r.avalanche_observations_count with
      | some c => c
      | none => 0
  | none =>
    match r.avalanche_observations_count with
    | some c => c
    | none => 0

/-- Modelled from the spec: the spec's whole-word rule bounds a match by
"non-letter characters or string edges", so its word-character class is
the letters only (the code's regex `\b` instead uses the word class
letters, digits and underscore). -/
def letterChar (c : Char) : Bool := c.isAlpha

/-- Modelled from the spec: the per-code test of the aspect classifier
as the spec words it — exact equality, or a whole-word occurrence
bounded by non-letter characters or string edges. -/
def specAspectHit (u : Str) (a : AspectK) : Bool :=
  decide (u = aspectCode a) || scanWord letterChar (aspectCode a) none u

/-- Modelled from the spec: the aspect classifier as described by the
claim — two-letter codes before single-letter codes, each matched
by `specAspectHit`. -/
def specAspectClaim (aspect : Option Str) : Option AspectK :=
  match aspect with
  | none => none
  | some s =>
    if s = [] then none
    else aspectOrder.find? (specAspectHit (trimStr (toUpperStr s)))

/-- Position of an aspect code in the order the classifier tries them. -/
def prioA : AspectK → Nat
  | .NE => 0
  | .NW => 1
  | .SE => 2
  | .SW => 3
  | .N => 4
  | .E => 5
  | .S => 6
  | .W => 7

/-- The last character of `pre`, or the supplied default when `pre` is
empty: the character immediately preceding an occurrence that starts
right after `pre`. -/
def lastOr : Str → Option Char → Option Char
  | [], d => d
  | c :: rest, _ => lastOr rest (some c)

/-- `code` occurs in `u` as a whole word: some decomposition
`u = pre ++ code ++ post` whose neighbouring characters (when they
exist) fall outside the word class `isW`. -/
def WholeWordOcc (isW : Char → Bool) (code u : Str) : Prop :=
  ∃ pre post, u = pre ++ code ++ post ∧
    (∀ x, lastOr pre none = some x → isW x = false) ∧
    (∀ x, post.head? = some x → isW x = false)

/-- A code matches per the amended claim: the uppercased trimmed input
equals the code, or contains it as a whole-word occurrence bounded by
non-word characters (letters, digits and underscore are word
characters) or string edges. -/
def MatchesAspect (a : AspectK) (u : Str) : Prop :=
  u = aspectCode a ∨ WholeWordOcc isWordChar (aspectCode a) u

/-- What one report contributes to the `observations` text collection. -/
def obsTextContrib (r : FieldReport) : List Str :=
  pushIfPresent [] (jsStrOr r.observation_summary r.description)

/-- A retained output string: non-empty and equal to its own trim. -/
def TrimmedNonEmpty (t : Str) : Prop := t ≠ [] ∧ trimStr t = t

/-- Modelled from the spec (section 4.3): the instability classifier as
the spec words it.  A null input defaults to `None`; otherwise the
lowercased input is tested rule by rule in severity order, first match
wins — contains "none", equals "no", or is empty; then the Minor,
Moderate, Major and Severe keyword groups; `None` when no rule
matched. -/
def specInstability (raw : Option Str) : LevelK :=
  match raw with
  | none => .None
  | some s =>
    let lower := toLowerStr s
    if containsSub (strOf "none") lower || decide (lower = strOf "no") ||
        decide (lower = []) then .None
    else if containsSub (strOf "minor") lower ||
        containsSub (strOf "slight") lower ||
        containsSub (strOf "light") lower then .Minor
    else if containsSub (strOf "moderate") lower ||
        containsSub (strOf "medium") lower then .Moderate
    else if containsSub (strOf "major") lower ||
        containsSub (strOf "heavy") lower ||
        containsSub (strOf "significant") lower then .Major
    else if containsSub (strOf "severe") lower ||
        containsSub (strOf "extreme") lower ||
        containsSub (strOf "widespread") lower then .Severe
    else .None

/-! ## Componentwise-addition algebra -/

theorem addElev_zero_right (x : ElevationBand) : addElev x zeroElev = x := by
  ext <;> simp [addElev, zeroElev]

theorem addElev_assoc (x y z : ElevationBand) :
    addElev (addElev x y) z = addElev x (addElev y z) := by
  ext <;> simp [addElev] <;> omega

theorem addElev_comm (x y : ElevationBand) : addElev x y = addElev y x := by
  ext <;> simp [addElev] <;> omega

theorem addAsp_zero_right (x : AspectCounts) : addAsp x zeroAsp = x := by
  ext <;> simp [addAsp, zeroAsp]

theorem addAsp_assoc (x y z : AspectCounts) :
    addAsp (addAsp x y) z = addAsp x (addAsp y z) := by
  ext <;> simp [addAsp] <;> omega

theorem addAsp_comm (x y : AspectCounts) : addAsp x y = addAsp y x := by
  ext <;> simp [addAsp] <;> omega

theorem addInstab_zero_right (x : InstabilityCounts) :
    addInstab x zeroInstab = x := by
  ext <;> simp [addInstab, zeroInstab]

theorem addInstab_assoc (x y z : InstabilityCounts) :
    addInstab (addInstab x y) z = addInstab x (addInstab y z) := by
  ext <;> simp [addInstab] <;> omega

theorem addInstab_comm (x y : InstabilityCounts) :
    addInstab x y = addInstab y x := by
  ext <;> simp [addInstab] <;> omega

theorem addAgg_zero_right (x : AggregatedData) : addAgg x zeroAgg = x := by
  ext <;> simp [addAgg, zeroAgg, initAgg, addElev, addAsp, addInstab]

theorem addAgg_assoc (x y z : AggregatedData) :
    addAgg (addAgg x y) z = addAgg x (addAgg y z) := by
  ext <;> simp [addAgg, addElev, addAsp, addInstab] <;> omega

theorem addAgg_comm (x y : AggregatedData) : addAgg x y = addAgg y x := by
  ext <;> simp [addAgg, addElev, addAsp, addInstab] <;> omega

/-! ## The reducer as a sum of per-report contributions -/

theorem bumpElev_add (e : ElevationBand) (b : ElevBandK) :
    bumpElev e b = addElev e (oneElev b) := by
  cases b <;> ext <;> simp [bumpElev, addElev, oneElev]

theorem bumpAspect_add (e : AspectCounts) (d : AspectK) :
    bumpAspect e d = addAsp e (oneAsp d) := by
  cases d <;> ext <;> simp [bumpAspect, addAsp, oneAsp]

theorem bumpLevel_add (e : InstabilityCounts) (lv : LevelK) :
    bumpLevel e lv = addInstab e (oneInstab lv) := by
  cases lv <;> ext <;> simp [bumpLevel, addInstab, oneInstab]

theorem avyStep_eq (a : AggregatedData) (o : AvalancheObservation) :
    avyStep a o =
      { a with
        avalanchesByElevation := addElev a.avalanchesByElevation (perObsElev o)
        avalanchesByAspect := addAsp a.avalanchesByAspect (perObsAsp o) } := by
  unfold avyStep perObsElev perObsAsp
  cases h1 : mapElevation o.elevation <;> cases h2 : mapAspect o.aspect <;>
    simp [bumpElev_add, bumpAspect_add] <;>
    ext <;> simp [addElev, addAsp, zeroElev, zeroAsp]

theorem snowStep_eq (a : AggregatedData) (o : SnowpackObservation) :
    snowStep a o =
      { a with
        crackingCounts := addInstab a.crackingCounts (perObsCracking o)
        collapsingCounts := addInstab a.collapsingCounts (perObsCollapsing o) } := by
  unfold snowStep perObsCracking perObsCollapsing
  simp [bumpLevel_add]

theorem foldl_avyStep (l : List AvalancheObservation) :
    ∀ a : AggregatedData,
      l.foldl avyStep a =
        { a with
          avalanchesByElevation :=
            addElev a.avalanchesByElevation (sumElev (l.map perObsElev))
          avalanchesByAspect :=
            addAsp a.avalanchesByAspect (sumAsp (l.map perObsAsp)) } := by
  induction l with
  | nil =>
    intro a
    simp [sumElev, sumAsp, addElev_zero_right, addAsp_zero_right]
  | cons o rest ih =>
    intro a
    rw [List.foldl_cons, ih, avyStep_eq]
    ext <;>
      simp [sumElev, sumAsp, addElev_assoc, addAsp_assoc]

theorem foldl_snowStep (l : List SnowpackObservation) :
    ∀ a : AggregatedData,
      l.foldl snowStep a =
        { a with
          crackingCounts :=
            addInstab a.crackingCounts (sumInstab (l.map perObsCracking))
          collapsingCounts :=
            addInstab a.collapsingCounts (sumInstab (l.map perObsCollapsing)) } := by
  induction l with
  | nil => intro a; simp [sumInstab, addInstab_zero_right]
  | cons o rest ih =>
    intro a
    rw [List.foldl_cons, ih, snowStep_eq]
    ext <;> simp [sumInstab, addInstab_assoc]


theorem stepReport_add (a : AggregatedData) (r : FieldReport) :
    stepReport a r = addAgg a (reportContrib r) := by
  unfold stepReport reportContrib
  simp only [avyObs, snowObs]
  rw [foldl_avyStep, foldl_snowStep]
  by_cases hc : avalancheCountOf r > 0 <;>
    by_cases he : r.snowpack_observations.getD [] = [] <;>
    simp only [hc, he, if_true, if_false, ite_true, ite_false, bumpLevel_add] <;>
    ext <;>
    simp [addAgg, addElev, addAsp, addInstab, zeroElev, zeroAsp, zeroInstab,
      oneInstab, addInstab_zero_right] <;>
    omega

theorem foldl_stepReport (l : List FieldReport) :
    ∀ a : AggregatedData,
      l.foldl stepReport a = addAgg a (sumAgg (l.map reportContrib)) := by
  induction l with
  | nil => intro a; simp [sumAgg, addAgg_zero_right]
  | cons r rest ih =>
    intro a
    rw [List.foldl_cons, ih, stepReport_add]
    have h : sumAgg ((r :: rest).map reportContrib) =
        addAgg (reportContrib r) (sumAgg (rest.map reportContrib)) := rfl
    rw [h, addAgg_assoc]

theorem aggregateReports_eq_sum (l : List FieldReport) :
    aggregateReports l =
      addAgg (initAgg l.length) (sumAgg (l.map reportContrib)) :=
  foldl_stepReport l (initAgg l.length)

theorem sumAgg_perm {l₁ l₂ : List AggregatedData} (h : l₁.Perm l₂) :
    sumAgg l₁ = sumAgg l₂ := by
  induction h with
  | nil => rfl
  | cons x _ ih => simp only [sumAgg, List.foldr_cons] at ih ⊢; rw [ih]
  | swap x y l =>
    show addAgg y (addAgg x (sumAgg l)) = addAgg x (addAgg y (sumAgg l))
    rw [← addAgg_assoc, addAgg_comm y x, addAgg_assoc]
  | trans _ _ ih₁ ih₂ => exact ih₁.trans ih₂

/-! projections of sums -/

theorem sumAgg_totalAvalanches (l : List AggregatedData) :
    (sumAgg l).totalAvalanches = (l.map AggregatedData.totalAvalanches).sum := by
  induction l with
  | nil => rfl
  | cons x xs ih =>
    show x.totalAvalanches + (sumAgg xs).totalAvalanches = _
    rw [ih]; simp

theorem sumAgg_reportsWithAvalanches (l : List AggregatedData) :
    (sumAgg l).reportsWithAvalanches =
      (l.map AggregatedData.reportsWithAvalanches).sum := by
  induction l with
  | nil => rfl
  | cons x xs ih =>
    show x.reportsWithAvalanches + (sumAgg xs).reportsWithAvalanches = _
    rw [ih]; simp

theorem sumAgg_elev (l : List AggregatedData) :
    (sumAgg l).avalanchesByElevation =
      sumElev (l.map AggregatedData.avalanchesByElevation) := by
  induction l with
  | nil => rfl
  | cons x xs ih =>
    show addElev x.avalanchesByElevation (sumAgg xs).avalanchesByElevation = _
    rw [ih]; rfl

theorem sumAgg_asp (l : List AggregatedData) :
    (sumAgg l).avalanchesByAspect =
      sumAsp (l.map AggregatedData.avalanchesByAspect) := by
  induction l with
  | nil => rfl
  | cons x xs ih =>
    show addAsp x.avalanchesByAspect (sumAgg xs).avalanchesByAspect = _
    rw [ih]; rfl

theorem sumAgg_cracking (l : List AggregatedData) :
    (sumAgg l).crackingCounts = sumInstab (l.map AggregatedData.crackingCounts) := by
  induction l with
  | nil => rfl
  | cons x xs ih =>
    show addInstab x.crackingCounts (sumAgg xs).crackingCounts = _
    rw [ih]; rfl

theorem sumAgg_collapsing (l : List AggregatedData) :
    (sumAgg l).collapsingCounts =
      sumInstab (l.map AggregatedData.collapsingCounts) := by
  induction l with
  | nil => rfl
  | cons x xs ih =>
    show addInstab x.collapsingCounts (sumAgg xs).collapsingCounts = _
    rw [ih]; rfl

theorem instabTotal_add (x y : InstabilityCounts) :
    instabTotal (addInstab x y) = instabTotal x + instabTotal y := by
  simp [instabTotal, addInstab]; omega

theorem instabTotal_sum (l : List InstabilityCounts) :
    instabTotal (sumInstab l) = (l.map instabTotal).sum := by
  induction l with
  | nil => rfl
  | cons x xs ih =>
    show instabTotal (addInstab x (sumInstab xs)) = _
    rw [instabTotal_add, ih]; simp

theorem elevTotal_add (x y : ElevationBand) :
    elevTotal (addElev x y) = elevTotal x + elevTotal y := by
  simp [elevTotal, addElev]; omega

theorem elevTotal_sum (l : List ElevationBand) :
    elevTotal (sumElev l) = (l.map elevTotal).sum := by
  induction l with
  | nil => rfl
  | cons x xs ih =>
    show elevTotal (addElev x (sumElev xs)) = _
    rw [elevTotal_add, ih]; simp

theorem aspTotal_add (x y : AspectCounts) :
    aspTotal (addAsp x y) = aspTotal x + aspTotal y := by
  simp [aspTotal, addAsp]; omega

theorem aspTotal_sum (l : List AspectCounts) :
    aspTotal (sumAsp l) = (l.map aspTotal).sum := by
  induction l with
  | nil => rfl
  | cons x xs ih =>
    show aspTotal (addAsp x (sumAsp xs)) = _
    rw [aspTotal_add, ih]; simp

theorem isPrefixOf_eq_append (l₁ : Str) :
    ∀ l₂ : Str, l₁.isPrefixOf l₂ = true ↔ ∃ t, l₂ = l₁ ++ t := by
  induction l₁ with
  | nil => intro l₂; simp [List.isPrefixOf]
  | cons c cs ih =>
    intro l₂
    cases l₂ with
    | nil => simp [List.isPrefixOf]
    | cons d ds =>
      simp only [List.isPrefixOf, Bool.and_eq_true, beq_iff_eq, ih ds]
      constructor
      · rintro ⟨rfl, t, rfl⟩; exact ⟨t, rfl⟩
      · rintro ⟨t, h⟩
        rw [List.cons_append] at h
        cases h
        exact ⟨rfl, t, rfl⟩

theorem okBefore_iff (isW : Char → Bool) (prev : Option Char) :
    okBefore isW prev = true ↔ ∀ x, prev = some x → isW x = false := by
  cases prev <;> simp [okBefore]

theorem okAfterHead_iff (isW : Char → Bool) (l : Str) :
    okAfterHead isW l = true ↔ ∀ x, l.head? = some x → isW x = false := by
  cases l <;> simp [okAfterHead]

theorem scanWord_iff (isW : Char → Bool) (code : Str) (hc : code ≠ []) :
    ∀ (u : Str) (prev : Option Char),
      scanWord isW code prev u = true ↔
        ∃ pre post, u = pre ++ (code ++ post) ∧
          (∀ x, lastOr pre prev = some x → isW x = false) ∧
          (∀ x, post.head? = some x → isW x = false) := by
  intro u
  induction u with
  | nil =>
    intro prev
    simp only [scanWord]
    constructor
    · intro h; exact absurd h (by simp)
    · rintro ⟨pre, post, h, -, -⟩
      rw [eq_comm, List.append_eq_nil, List.append_eq_nil] at h
      exact absurd h.2.1 hc
  | cons c rest ih =>
    intro prev
    simp only [scanWord, Bool.or_eq_true, Bool.and_eq_true]
    constructor
    · rintro (⟨⟨hb, hp⟩, ha⟩ | htail)
      · rcases (isPrefixOf_eq_append code (c :: rest)).mp hp with ⟨post, hpost⟩
        refine ⟨[], post, by simpa using hpost, ?_, ?_⟩
        · intro x hx
          exact (okBefore_iff isW prev).mp hb x hx
        · intro x hx
          apply (okAfterHead_iff isW _).mp ha x
          rw [hpost, List.drop_left]
          exact hx
      · rcases (ih (some c)).mp htail with ⟨pre, post, heq, hb, ha⟩
        exact ⟨c :: pre, post, by simp [heq], hb, ha⟩
    · rintro ⟨pre, post, heq, hb, ha⟩
      cases pre with
      | nil =>
        left
        simp only [List.nil_append] at heq
        refine ⟨⟨?_, ?_⟩, ?_⟩
        · exact (okBefore_iff isW prev).mpr hb
        · exact (isPrefixOf_eq_append code (c :: rest)).mpr ⟨post, heq⟩
        · apply (okAfterHead_iff isW _).mpr
          intro x hx
          apply ha x
          rw [heq, List.drop_left] at hx
          exact hx
      | cons c' pre' =>
        right
        rw [List.cons_append] at heq
        cases heq
        exact (ih (some c)).mpr ⟨pre', post, rfl, hb, ha⟩

theorem aspectCode_ne_nil (a : AspectK) : aspectCode a ≠ [] := by
  cases a <;> simp [aspectCode, strOf]

theorem aspectHit_iff (a : AspectK) (u : Str) :
    aspectHit u a = true ↔ MatchesAspect a u := by
  unfold aspectHit MatchesAspect WholeWordOcc wordBoundaryTest
  rw [Bool.or_eq_true, decide_eq_true_iff,
    scanWord_iff isWordChar (aspectCode a) (aspectCode_ne_nil a) u none]
  constructor
  · rintro (h | ⟨pre, post, h1, h2, h3⟩)
    · exact Or.inl h
    · exact Or.inr ⟨pre, post, by simpa [List.append_assoc] using h1, h2, h3⟩
  · rintro (h | ⟨pre, post, h1, h2, h3⟩)
    · exact Or.inl h
    · exact Or.inr ⟨pre, post, by simpa [List.append_assoc] using h1, h2, h3⟩

theorem specAspectHit_iff (a : AspectK) (u : Str) :
    specAspectHit u a = true ↔
      (u = aspectCode a ∨ WholeWordOcc letterChar (aspectCode a) u) := by
  unfold specAspectHit WholeWordOcc
  rw [Bool.or_eq_true, decide_eq_true_iff,
    scanWord_iff letterChar (aspectCode a) (aspectCode_ne_nil a) u none]
  constructor
  · rintro (h | ⟨pre, post, h1, h2, h3⟩)
    · exact Or.inl h
    · exact Or.inr ⟨pre, post, by simpa [List.append_assoc] using h1, h2, h3⟩
  · rintro (h | ⟨pre, post, h1, h2, h3⟩)
    · exact Or.inl h
    · exact Or.inr ⟨pre, post, by simpa [List.append_assoc] using h1, h2, h3⟩

/- helper lemmas for the claim theorems -/

theorem instabTotal_perObsCracking (o : SnowpackObservation) :
    instabTotal (perObsCracking o) = 1 := by
  unfold perObsCracking
  cases mapInstabilityLevel o.cracking <;> simp [oneInstab, instabTotal]

theorem instabTotal_perObsCollapsing (o : SnowpackObservation) :
    instabTotal (perObsCollapsing o) = 1 := by
  unfold perObsCollapsing
  cases mapInstabilityLevel o.collapsing <;> simp [oneInstab, instabTotal]

theorem instabTotal_cracking_list (l : List SnowpackObservation) :
    instabTotal (sumInstab (l.map perObsCracking)) = l.length := by
  rw [instabTotal_sum, List.map_map]
  induction l with
  | nil => rfl
  | cons o rest ih =>
    simp only [List.map_cons, List.sum_cons, Function.comp,
      instabTotal_perObsCracking, ih, List.length_cons]
    omega

theorem instabTotal_collapsing_list (l : List SnowpackObservation) :
    instabTotal (sumInstab (l.map perObsCollapsing)) = l.length := by
  rw [instabTotal_sum, List.map_map]
  induction l with
  | nil => rfl
  | cons o rest ih =>
    simp only [List.map_cons, List.sum_cons, Function.comp,
      instabTotal_perObsCollapsing, ih, List.length_cons]
    omega

theorem reportContrib_cracking_total (r : FieldReport) :
    instabTotal (reportContrib r).crackingCounts = max 1 (snowObs r).length := by
  show instabTotal (addInstab (sumInstab ((snowObs r).map perObsCracking)) _) = _
  rw [instabTotal_add, instabTotal_cracking_list]
  by_cases he : snowObs r = []
  · simp [he, oneInstab, instabTotal]
  · have : 0 < (snowObs r).length := List.length_pos.mpr he
    simp [he, zeroInstab, instabTotal]
    omega

theorem reportContrib_collapsing_total (r : FieldReport) :
    instabTotal (reportContrib r).collapsingCounts = max 1 (snowObs r).length := by
  show instabTotal (addInstab (sumInstab ((snowObs r).map perObsCollapsing)) _) = _
  rw [instabTotal_add, instabTotal_collapsing_list]
  by_cases he : snowObs r = []
  · simp [he, oneInstab, instabTotal]
  · have : 0 < (snowObs r).length := List.length_pos.mpr he
    simp [he, zeroInstab, instabTotal]
    omega

theorem addInstab_zero_left (x : InstabilityCounts) :
    addInstab zeroInstab x = x := by
  rw [addInstab_comm]
  exact addInstab_zero_right x

theorem sumInstab_append_single (M : List InstabilityCounts)
    (c : InstabilityCounts) : sumInstab (M ++ [c]) = addInstab (sumInstab M) c := by
  induction M with
  | nil =>
    show addInstab c zeroInstab = addInstab zeroInstab c
    rw [addInstab_comm]
  | cons m M ih =>
    show addInstab m (sumInstab (M ++ [c])) = addInstab (addInstab m (sumInstab M)) c
    rw [ih, addInstab_assoc]

theorem aggregateReports_cracking (l : List FieldReport) :
    (aggregateReports l).crackingCounts =
      sumInstab (l.map fun r => (reportContrib r).crackingCounts) := by
  rw [aggregateReports_eq_sum]
  show addInstab (initAgg l.length).crackingCounts
      (sumAgg (l.map reportContrib)).crackingCounts = _
  rw [sumAgg_cracking, List.map_map]
  have hz : (initAgg l.length).crackingCounts = zeroInstab := rfl
  rw [hz, addInstab_zero_left]
  rfl

theorem aggregateReports_collapsing (l : List FieldReport) :
    (aggregateReports l).collapsingCounts =
      sumInstab (l.map fun r => (reportContrib r).collapsingCounts) := by
  rw [aggregateReports_eq_sum]
  show addInstab (initAgg l.length).collapsingCounts
      (sumAgg (l.map reportContrib)).collapsingCounts = _
  rw [sumAgg_collapsing, List.map_map]
  have hz : (initAgg l.length).collapsingCounts = zeroInstab := rfl
  rw [hz, addInstab_zero_left]
  rfl

theorem instabGet_add (x y : InstabilityCounts) (lv : LevelK) :
    instabGet (addInstab x y) lv = instabGet x lv + instabGet y lv := by
  cases lv <;> rfl

theorem instabGet_oneInstab (a lv : LevelK) :
    instabGet (oneInstab a) lv = if a = lv then 1 else 0 := by
  cases a <;> cases lv <;> decide

theorem instabGet_zero (lv : LevelK) : instabGet zeroInstab lv = 0 := by
  cases lv <;> rfl

theorem instabGet_sum (M : List InstabilityCounts) (lv : LevelK) :
    instabGet (sumInstab M) lv = (M.map fun c => instabGet c lv).sum := by
  induction M with
  | nil => exact instabGet_zero lv
  | cons c M ih =>
    show instabGet (addInstab c (sumInstab M)) lv = _
    rw [instabGet_add, ih]
    simp

theorem instabGet_cracking_list (L : List SnowpackObservation) (lv : LevelK) :
    instabGet (sumInstab (L.map perObsCracking)) lv =
      L.countP fun o => decide (mapInstabilityLevel o.cracking = lv) := by
  induction L with
  | nil => exact instabGet_zero lv
  | cons o L ih =>
    show instabGet (addInstab (perObsCracking o)
      (sumInstab (L.map perObsCracking))) lv = _
    rw [instabGet_add, ih, List.countP_cons]
    unfold perObsCracking
    rw [instabGet_oneInstab]
    by_cases h : mapInstabilityLevel o.cracking = lv <;>
      simp [h, Nat.add_comm]

theorem instabGet_collapsing_list (L : List SnowpackObservation) (lv : LevelK) :
    instabGet (sumInstab (L.map perObsCollapsing)) lv =
      L.countP fun o => decide (mapInstabilityLevel o.collapsing = lv) := by
  induction L with
  | nil => exact instabGet_zero lv
  | cons o L ih =>
    show instabGet (addInstab (perObsCollapsing o)
      (sumInstab (L.map perObsCollapsing))) lv = _
    rw [instabGet_add, ih, List.countP_cons]
    unfold perObsCollapsing
    rw [instabGet_oneInstab]
    by_cases h : mapInstabilityLevel o.collapsing = lv <;>
      simp [h, Nat.add_comm]

theorem reportContrib_cracking_get (r : FieldReport) (lv : LevelK) :
    instabGet (reportContrib r).crackingCounts lv =
      ((snowObs r).countP fun o => decide (mapInstabilityLevel o.cracking = lv)) +
        if snowObs r = [] ∧ lv = LevelK.None then 1 else 0 := by
  show instabGet (addInstab (sumInstab ((snowObs r).map perObsCracking))
      (if snowObs r = [] then oneInstab .None else zeroInstab)) lv = _
  rw [instabGet_add, instabGet_cracking_list]
  by_cases he : snowObs r = []
  · rw [if_pos he, instabGet_oneInstab]
    by_cases hl : lv = LevelK.None
    · simp [he, hl]
    · simp [he, hl]
      exact fun h => hl h.symm
  · rw [if_neg he, instabGet_zero, if_neg (fun h => he h.1)]

theorem reportContrib_collapsing_get (r : FieldReport) (lv : LevelK) :
    instabGet (reportContrib r).collapsingCounts lv =
      ((snowObs r).countP fun o => decide (mapInstabilityLevel o.collapsing = lv)) +
        if snowObs r = [] ∧ lv = LevelK.None then 1 else 0 := by
  show instabGet (addInstab (sumInstab ((snowObs r).map perObsCollapsing))
      (if snowObs r = [] then oneInstab .None else zeroInstab)) lv = _
  rw [instabGet_add, instabGet_collapsing_list]
  by_cases he : snowObs r = []
  · rw [if_pos he, instabGet_oneInstab]
    by_cases hl : lv = LevelK.None
    · simp [he, hl]
    · simp [he, hl]
      exact fun h => hl h.symm
  · rw [if_neg he, instabGet_zero, if_neg (fun h => he h.1)]

/-- C1: each snowpack observation of each report increments exactly one
of the five `crackingCounts` buckets and exactly one of the five
`collapsingCounts` buckets (the bucket of its classified level), a
report whose `snowpack_observations` list is absent or empty increments
`crackingCounts.None` and `collapsingCounts.None` by exactly one and no
other bucket, and hence the sum of each counter over the five levels
equals the sum over reports of `max 1 (number of snowpack
observations)`. -/
theorem aggregateReports_instability_unit_counts :
    (∀ (l : List FieldReport) (r : FieldReport), snowObs r = [] →
      (aggregateReports (l ++ [r])).crackingCounts =
        addInstab (aggregateReports l).crackingCounts (oneInstab .None) ∧
      (aggregateReports (l ++ [r])).collapsingCounts =
        addInstab (aggregateReports l).collapsingCounts (oneInstab .None)) ∧
    (∀ (l : List FieldReport) (lv : LevelK),
      instabGet (aggregateReports l).crackingCounts lv =
        (l.map fun r =>
          ((snowObs r).countP fun o =>
            decide (mapInstabilityLevel o.cracking = lv)) +
            if snowObs r = [] ∧ lv = LevelK.None then 1 else 0).sum ∧
      instabGet (aggregateReports l).collapsingCounts lv =
        (l.map fun r =>
          ((snowObs r).countP fun o =>
            decide (mapInstabilityLevel o.collapsing = lv)) +
            if snowObs r = [] ∧ lv = LevelK.None then 1 else 0).sum) ∧
    (∀ l : List FieldReport,
      instabTotal (aggregateReports l).crackingCounts =
        (l.map fun r => max 1 (snowObs r).length).sum ∧
      instabTotal (aggregateReports l).collapsingCounts =
        (l.map fun r => max 1 (snowObs r).length).sum) := by
  refine ⟨?_, ?_, ?_⟩
  · intro l r he
    have hcr : (reportContrib r).crackingCounts = oneInstab .None := by
      show addInstab (sumInstab ((snowObs r).map perObsCracking))
        (if snowObs r = [] then oneInstab .None else zeroInstab) = _
      rw [he, if_pos rfl]
      exact addInstab_zero_left _
    have hco : (reportContrib r).collapsingCounts = oneInstab .None := by
      show addInstab (sumInstab ((snowObs r).map perObsCollapsing))
        (if snowObs r = [] then oneInstab .None else zeroInstab) = _
      rw [he, if_pos rfl]
      exact addInstab_zero_left _
    constructor
    · rw [aggregateReports_cracking, aggregateReports_cracking,
        List.map_append]
      simp only [List.map_cons, List.map_nil]
      rw [sumInstab_append_single, hcr]
    · rw [aggregateReports_collapsing, aggregateReports_collapsing,
        List.map_append]
      simp only [List.map_cons, List.map_nil]
      rw [sumInstab_append_single, hco]
  · intro l lv
    constructor
    · rw [aggregateReports_cracking, instabGet_sum, List.map_map]
      have hmc : (l.map ((fun c => instabGet c lv) ∘
          fun r => (reportContrib r).crackingCounts)) =
          l.map fun r =>
            ((snowObs r).countP fun o =>
              decide (mapInstabilityLevel o.cracking = lv)) +
              if snowObs r = [] ∧ lv = LevelK.None then 1 else 0 := by
        apply List.map_congr_left
        intro r _
        exact reportContrib_cracking_get r lv
      rw [hmc]
    · rw [aggregateReports_collapsing, instabGet_sum, List.map_map]
      have hmc : (l.map ((fun c => instabGet c lv) ∘
          fun r => (reportContrib r).collapsingCounts)) =
          l.map fun r =>
            ((snowObs r).countP fun o =>
              decide (mapInstabilityLevel o.collapsing = lv)) +
              if snowObs r = [] ∧ lv = LevelK.None then 1 else 0 := by
        apply List.map_congr_left
        intro r _
        exact reportContrib_collapsing_get r lv
      rw [hmc]
  · intro l
    rw [aggregateReports_eq_sum]
    constructor
    · show instabTotal (addInstab (initAgg l.length).crackingCounts
        (sumAgg (l.map reportContrib)).crackingCounts) = _
      rw [instabTotal_add, sumAgg_cracking, instabTotal_sum, List.map_map,
        List.map_map]
      have : (AggregatedData.crackingCounts ∘ reportContrib) =
          fun r => (reportContrib r).crackingCounts := rfl
      simp only [instabTotal, initAgg, Function.comp]
      have h2 : (l.map fun r => instabTotal (reportContrib r).crackingCounts) =
          l.map fun r => max 1 (snowObs r).length := by
        apply List.map_congr_left
        intro r _
        exact reportContrib_cracking_total r
      simpa using congrArg List.sum h2
    · show instabTotal (addInstab (initAgg l.length).collapsingCounts
        (sumAgg (l.map reportContrib)).collapsingCounts) = _
      rw [instabTotal_add, sumAgg_collapsing, instabTotal_sum, List.map_map,
        List.map_map]
      simp only [instabTotal, initAgg, Function.comp]
      have h2 : (l.map fun r => instabTotal (reportContrib r).collapsingCounts) =
          l.map fun r => max 1 (snowObs r).length := by
        apply List.map_congr_left
        intro r _
        exact reportContrib_collapsing_total r
      simpa using congrArg List.sum h2

/-- C1 witness: appending a report with no snowpack observations bumps
exactly the `None` buckets. -/
theorem aggregateReports_instability_unit_counts_witness :
    snowObs emptyReport = [] ∧
    (aggregateReports ([] ++ [emptyReport])).crackingCounts =
      addInstab (aggregateReports []).crackingCounts (oneInstab .None) ∧
    (aggregateReports ([] ++ [emptyReport])).collapsingCounts =
      addInstab (aggregateReports []).collapsingCounts (oneInstab .None) :=
  ⟨by decide,
    (aggregateReports_instability_unit_counts.1 [] emptyReport (by decide)).1,
    (aggregateReports_instability_unit_counts.1 [] emptyReport (by decide)).2⟩

theorem claimAvalancheCount_eq (r : FieldReport) :
    claimAvalancheCount r = avalancheCountOf r := by
  unfold claimAvalancheCount avalancheCountOf jsNumOr
  rcases r.avalanche_observations with _ | L
  · rcases r.avalanche_observations_count with _ | c
    · rfl
    · by_cases h : c = 0 <;> simp [h]
  · by_cases hL : L = []
    · subst hL
      rcases r.avalanche_observations_count with _ | c
      · simp
      · by_cases h : c = 0 <;> simp [h]
    · have : L.length ≠ 0 := fun h => hL (List.length_eq_zero.mp h)
      simp [hL, this]

/-- C3: the per-report avalanche count is the length of a present,
non-empty `avalanche_observations` list, else the
`avalanche_observations_count` fallback, else 0; `totalAvalanches` is
the sum of those counts, and `reportsWithAvalanches` counts the reports
whose count is positive, once per report. -/
theorem aggregateReports_avalanche_totals (l : List FieldReport) :
    (aggregateReports l).totalAvalanches = (l.map claimAvalancheCount).sum ∧
    (aggregateReports l).reportsWithAvalanches =
      (l.map fun r => if claimAvalancheCount r > 0 then 1 else 0).sum ∧
    ∀ r : FieldReport, claimAvalancheCount r = avalancheCountOf r := by
  rw [aggregateReports_eq_sum]
  refine ⟨?_, ?_, claimAvalancheCount_eq⟩
  · show (initAgg l.length).totalAvalanches +
      (sumAgg (l.map reportContrib)).totalAvalanches = _
    rw [sumAgg_totalAvalanches, List.map_map]
    have h2 : (l.map (AggregatedData.totalAvalanches ∘ reportContrib)) =
        l.map claimAvalancheCount := by
      apply List.map_congr_left
      intro r _
      exact (claimAvalancheCount_eq r).symm
    rw [h2]
    simp [initAgg]
  · show (initAgg l.length).reportsWithAvalanches +
      (sumAgg (l.map reportContrib)).reportsWithAvalanches = _
    rw [sumAgg_reportsWithAvalanches, List.map_map]
    have h2 : (l.map (AggregatedData.reportsWithAvalanches ∘ reportContrib)) =
        l.map fun r => if claimAvalancheCount r > 0 then 1 else 0 := by
      apply List.map_congr_left
      intro r _
      show (if avalancheCountOf r > 0 then 1 else 0) = _
      rw [claimAvalancheCount_eq]
    rw [h2]
    simp [initAgg]

/-- C8: `aggregateReports` is a pure function — running it twice on the
same list yields the same snapshot — and its result is invariant under
permutation of the input report list. -/
theorem aggregateReports_perm_invariant :
    (∀ l : List FieldReport, aggregateReports l = aggregateReports l) ∧
    ∀ (l l' : List FieldReport), l.Perm l' →
      aggregateReports l = aggregateReports l' := by
  refine ⟨fun l => rfl, fun l l' h => ?_⟩
  rw [aggregateReports_eq_sum, aggregateReports_eq_sum, h.length_eq,
    sumAgg_perm (h.map reportContrib)]

/-- C8 witness: swapping two concrete reports leaves the snapshot
unchanged. -/
theorem aggregateReports_perm_invariant_witness :
    aggregateReports [{ emptyReport with id := 1 },
      { emptyReport with id := 2, avalanche_observations_count := some 3 }] =
    aggregateReports [{ emptyReport with id := 2, avalanche_observations_count := some 3 },
      { emptyReport with id := 1 }] :=
  aggregateReports_perm_invariant.2 _ _
    (List.Perm.swap { emptyReport with id := 2, avalanche_observations_count := some 3 }
      { emptyReport with id := 1 } [])

theorem avalancheCountOf_fallback (r : FieldReport)
    (h1 : r.avalanche_observations.getD [] = []) :
    avalancheCountOf r = r.avalanche_observations_count.getD 0 := by
  unfold avalancheCountOf jsNumOr
  rcases hobs : r.avalanche_observations with _ | L
  · rcases r.avalanche_observations_count with _ | c
    · rfl
    · by_cases h : c = 0 <;> simp [h]
  · rw [hobs] at h1
    simp only [Option.getD_some] at h1
    subst h1
    rcases r.avalanche_observations_count with _ | c
    · simp
    · by_cases h : c = 0 <;> simp [h]

/-- C10: when a report's `avalanche_observations` list is absent or
empty, the raw `avalanche_observations_count` is added to
`totalAvalanches` unclamped: with a negative count the total strictly
decreases and `reportsWithAvalanches` does not change. -/
theorem aggregateReports_negative_count_unclamped (l : List FieldReport)
    (r : FieldReport) (h1 : r.avalanche_observations.getD [] = [])
    (c : Int) (h2 : r.avalanche_observations_count = some c) (h3 : c < 0) :
    (aggregateReports (l ++ [r])).totalAvalanches =
      (aggregateReports l).totalAvalanches + c ∧
    (aggregateReports (l ++ [r])).totalAvalanches <
      (aggregateReports l).totalAvalanches ∧
    (aggregateReports (l ++ [r])).reportsWithAvalanches =
      (aggregateReports l).reportsWithAvalanches := by
  have hav : avalancheCountOf r = c := by
    rw [avalancheCountOf_fallback r h1, h2]
    rfl
  have hta : ∀ m : List FieldReport, (aggregateReports m).totalAvalanches =
      (m.map (fun x => avalancheCountOf x)).sum := by
    intro m
    rw [aggregateReports_eq_sum]
    show (initAgg m.length).totalAvalanches +
      (sumAgg (m.map reportContrib)).totalAvalanches = _
    rw [sumAgg_totalAvalanches, List.map_map]
    have hco : (AggregatedData.totalAvalanches ∘ reportContrib) =
        fun x => avalancheCountOf x := rfl
    rw [hco]
    simp [initAgg]
  have hrw : ∀ m : List FieldReport, (aggregateReports m).reportsWithAvalanches =
      (m.map (fun x => if avalancheCountOf x > 0 then 1 else 0)).sum := by
    intro m
    rw [aggregateReports_eq_sum]
    show (initAgg m.length).reportsWithAvalanches +
      (sumAgg (m.map reportContrib)).reportsWithAvalanches = _
    rw [sumAgg_reportsWithAvalanches, List.map_map]
    have hco : (AggregatedData.reportsWithAvalanches ∘ reportContrib) =
        fun x => if avalancheCountOf x > 0 then 1 else 0 := rfl
    rw [hco]
    simp [initAgg]
  have hc0 : ¬ (avalancheCountOf r > 0) := by omega
  refine ⟨?_, ?_, ?_⟩
  · rw [hta, hta, List.map_append, List.sum_append]
    simp [hav]
  · rw [hta, hta, List.map_append, List.sum_append]
    simp [hav]
    omega
  · rw [hrw, hrw, List.map_append, List.sum_append]
    simp [hc0]

/-- C10 witness: a single report with an empty observation list and a
count of `-2` drives the totals negative without touching
`reportsWithAvalanches`. -/
theorem aggregateReports_negative_count_unclamped_witness :
    (aggregateReports [{ emptyReport with
        avalanche_observations := some []
        avalanche_observations_count := some (-2) }]).totalAvalanches =
      (aggregateReports []).totalAvalanches + (-2) ∧
    (aggregateReports [{ emptyReport with
        avalanche_observations := some []
        avalanche_observations_count := some (-2) }]).totalAvalanches <
      (aggregateReports []).totalAvalanches ∧
    (aggregateReports [{ emptyReport with
        avalanche_observations := some []
        avalanche_observations_count := some (-2) }]).reportsWithAvalanches =
      (aggregateReports []).reportsWithAvalanches :=
  aggregateReports_negative_count_unclamped [] _ (by decide) (-2) (by decide)
    (by decide)

theorem elevTotal_perObsElev (o : AvalancheObservation) :
    elevTotal (perObsElev o) ≤ 1 := by
  unfold perObsElev
  rcases mapElevation o.elevation with _ | b
  · simp [zeroElev, elevTotal]
  · cases b <;> simp [oneElev, elevTotal]

theorem aspTotal_perObsAsp (o : AvalancheObservation) :
    aspTotal (perObsAsp o) ≤ 1 := by
  unfold perObsAsp
  rcases mapAspect o.aspect with _ | d
  · simp [zeroAsp, aspTotal]
  · cases d <;> simp [oneAsp, aspTotal]

theorem elevTotal_obs_list (L : List AvalancheObservation) :
    elevTotal (sumElev (L.map perObsElev)) ≤ L.length := by
  induction L with
  | nil => simp [sumElev, zeroElev, elevTotal]
  | cons o rest ih =>
    show elevTotal (addElev (perObsElev o) (sumElev (rest.map perObsElev))) ≤ _
    rw [elevTotal_add]
    have h1 := elevTotal_perObsElev o
    simp only [List.length_cons]
    omega

theorem aspTotal_obs_list (L : List AvalancheObservation) :
    aspTotal (sumAsp (L.map perObsAsp)) ≤ L.length := by
  induction L with
  | nil => simp [sumAsp, zeroAsp, aspTotal]
  | cons o rest ih =>
    show aspTotal (addAsp (perObsAsp o) (sumAsp (rest.map perObsAsp))) ≤ _
    rw [aspTotal_add]
    have h1 := aspTotal_perObsAsp o
    simp only [List.length_cons]
    omega

theorem reportContrib_elev_le (r : FieldReport)
    (h : 0 ≤ r.avalanche_observations_count.getD 0) :
    (elevTotal (reportContrib r).avalanchesByElevation : Int) ≤
      avalancheCountOf r := by
  show (elevTotal (sumElev ((avyObs r).map perObsElev)) : Int) ≤ _
  rcases hobs : r.avalanche_observations with _ | L
  · have hav : avyObs r = [] := by simp [avyObs, hobs]
    rw [hav, avalancheCountOf_fallback r (by simp [hobs])]
    simpa [sumElev, zeroElev, elevTotal] using h
  · by_cases hL : L = []
    · have hav : avyObs r = [] := by simp [avyObs, hobs, hL]
      rw [hav, avalancheCountOf_fallback r (by simp [hobs, hL])]
      simpa [sumElev, zeroElev, elevTotal] using h
    · have hlen : L.length ≠ 0 := fun hz => hL (List.length_eq_zero.mp hz)
      have hav : avyObs r = L := by simp [avyObs, hobs]
      have hc : avalancheCountOf r = (L.length : Int) := by
        unfold avalancheCountOf
        simp [hobs, hlen]
      rw [hav, hc]
      exact_mod_cast elevTotal_obs_list L

theorem reportContrib_asp_le (r : FieldReport)
    (h : 0 ≤ r.avalanche_observations_count.getD 0) :
    (aspTotal (reportContrib r).avalanchesByAspect : Int) ≤
      avalancheCountOf r := by
  show (aspTotal (sumAsp ((avyObs r).map perObsAsp)) : Int) ≤ _
  rcases hobs : r.avalanche_observations with _ | L
  · have hav : avyObs r = [] := by simp [avyObs, hobs]
    rw [hav, avalancheCountOf_fallback r (by simp [hobs])]
    simpa [sumAsp, zeroAsp, aspTotal] using h
  · by_cases hL : L = []
    · have hav : avyObs r = [] := by simp [avyObs, hobs, hL]
      rw [hav, avalancheCountOf_fallback r (by simp [hobs, hL])]
      simpa [sumAsp, zeroAsp, aspTotal] using h
    · have hlen : L.length ≠ 0 := fun hz => hL (List.length_eq_zero.mp hz)
      have hav : avyObs r = L := by simp [avyObs, hobs]
      have hc : avalancheCountOf r = (L.length : Int) := by
        unfold avalancheCountOf
        simp [hobs, hlen]
      rw [hav, hc]
      exact_mod_cast aspTotal_obs_list L

/-- C2 (amended): provided no report carries a negative
`avalanche_observations_count` fallback, the elevation buckets sum to at
most `totalAvalanches`, and likewise the eight aspect buckets
(unclassified observations are dropped, not counted elsewhere). -/
theorem aggregateReports_bucket_sums_le_total (l : List FieldReport)
    (h : ∀ r ∈ l, 0 ≤ r.avalanche_observations_count.getD 0) :
    ((elevTotal (aggregateReports l).avalanchesByElevation : Int) ≤
      (aggregateReports l).totalAvalanches) ∧
    ((aspTotal (aggregateReports l).avalanchesByAspect : Int) ≤
      (aggregateReports l).totalAvalanches) := by
  rw [aggregateReports_eq_sum]
  have hta : (addAgg (initAgg l.length)
      (sumAgg (l.map reportContrib))).totalAvalanches =
      (l.map fun r => avalancheCountOf r).sum := by
    show (initAgg l.length).totalAvalanches +
      (sumAgg (l.map reportContrib)).totalAvalanches = _
    rw [sumAgg_totalAvalanches, List.map_map]
    have hco : (AggregatedData.totalAvalanches ∘ reportContrib) =
        fun x => avalancheCountOf x := rfl
    rw [hco]
    simp [initAgg]
  constructor
  · have he : (addAgg (initAgg l.length)
        (sumAgg (l.map reportContrib))).avalanchesByElevation =
        sumElev (l.map fun r => (reportContrib r).avalanchesByElevation) := by
      show addElev (initAgg l.length).avalanchesByElevation _ = _
      rw [sumAgg_elev, List.map_map]
      have hz : (initAgg l.length).avalanchesByElevation = zeroElev := rfl
      rw [hz]
      have hco : (AggregatedData.avalanchesByElevation ∘ reportContrib) =
          fun r => (reportContrib r).avalanchesByElevation := rfl
      rw [hco]
      have : ∀ x, addElev zeroElev x = x := by
        intro x; rw [addElev_comm]; exact addElev_zero_right x
      exact this _
    rw [he, hta, elevTotal_sum, List.map_map]
    have hcast : ((((l.map fun r =>
        elevTotal (reportContrib r).avalanchesByElevation)).sum : Nat) : Int) =
        (l.map fun r =>
          (elevTotal (reportContrib r).avalanchesByElevation : Int)).sum := by
      rw [Nat.cast_list_sum, List.map_map]
      rfl
    have hcomp : (l.map (elevTotal ∘ fun r =>
        (reportContrib r).avalanchesByElevation)) =
        l.map fun r => elevTotal (reportContrib r).avalanchesByElevation := rfl
    rw [hcomp, hcast]
    exact List.sum_le_sum fun r hr => reportContrib_elev_le r (h r hr)
  · have he : (addAgg (initAgg l.length)
        (sumAgg (l.map reportContrib))).avalanchesByAspect =
        sumAsp (l.map fun r => (reportContrib r).avalanchesByAspect) := by
      show addAsp (initAgg l.length).avalanchesByAspect _ = _
      rw [sumAgg_asp, List.map_map]
      have hz : (initAgg l.length).avalanchesByAspect = zeroAsp := rfl
      rw [hz]
      have hco : (AggregatedData.avalanchesByAspect ∘ reportContrib) =
          fun r => (reportContrib r).avalanchesByAspect := rfl
      rw [hco]
      have : ∀ x, addAsp zeroAsp x = x := by
        intro x; rw [addAsp_comm]; exact addAsp_zero_right x
      exact this _
    rw [he, hta, aspTotal_sum, List.map_map]
    have hcast : ((((l.map fun r =>
        aspTotal (reportContrib r).avalanchesByAspect)).sum : Nat) : Int) =
        (l.map fun r =>
          (aspTotal (reportContrib r).avalanchesByAspect : Int)).sum := by
      rw [Nat.cast_list_sum, List.map_map]
      rfl
    have hcomp : (l.map (aspTotal ∘ fun r =>
        (reportContrib r).avalanchesByAspect)) =
        l.map fun r => aspTotal (reportContrib r).avalanchesByAspect := rfl
    rw [hcomp, hcast]
    exact List.sum_le_sum fun r hr => reportContrib_asp_le r (h r hr)

/-- C2 counterexample: a report with no itemized avalanche observations
and a negative `avalanche_observations_count` makes `totalAvalanches`
negative while every bucket stays zero, so the claimed invariant fails
as stated. -/
theorem aggregateReports_bucket_sums_counterexample :
    ¬ ((elevTotal (aggregateReports [{ emptyReport with
          avalanche_observations_count := some (-1) }]).avalanchesByElevation : Int) ≤
        (aggregateReports [{ emptyReport with
          avalanche_observations_count := some (-1) }]).totalAvalanches) := by
  decide

/-- C2 witness: on a list whose only report carries one classified
avalanche observation, both bucket sums are bounded by the total. -/
theorem aggregateReports_bucket_sums_le_total_witness :
    (∀ r ∈ [{ emptyReport with
        avalanche_observations := some [⟨some (strOf "N"), some (strOf ">TL")⟩] }],
      0 ≤ r.avalanche_observations_count.getD 0) ∧
    (((elevTotal (aggregateReports [{ emptyReport with
        avalanche_observations := some [⟨some (strOf "N"), some (strOf ">TL")⟩] }]).avalanchesByElevation : Int) ≤
      (aggregateReports [{ emptyReport with
        avalanche_observations := some [⟨some (strOf "N"), some (strOf ">TL")⟩] }]).totalAvalanches) ∧
    ((aspTotal (aggregateReports [{ emptyReport with
        avalanche_observations := some [⟨some (strOf "N"), some (strOf ">TL")⟩] }]).avalanchesByAspect : Int) ≤
      (aggregateReports [{ emptyReport with
        avalanche_observations := some [⟨some (strOf "N"), some (strOf ">TL")⟩] }]).totalAvalanches)) :=
  ⟨by decide, aggregateReports_bucket_sums_le_total _ (by decide)⟩

/-- C4: `mapElevation` maps null/empty input to `none`; otherwise it
decodes the HTML entities, trims, uppercases, and tests the above,
below and near rules in that exact order with the first match winning —
so any decoded string satisfying both an above-marker and a
below-marker classifies above — with the spec's four concrete
examples. -/
theorem mapElevation_spec :
    mapElevation none = none ∧
    mapElevation (some []) = none ∧
    (∀ s : Str, aboveCond (decodeElev s) = true → belowCond (decodeElev s) = true →
      mapElevation (some s) = some .aboveTreeline) ∧
    (∀ s : Str, aboveCond (decodeElev s) = true →
      mapElevation (some s) = some .aboveTreeline) ∧
    (∀ s : Str, aboveCond (decodeElev s) = false → belowCond (decodeElev s) = true →
      mapElevation (some s) = some .belowTreeline) ∧
    (∀ s : Str, aboveCond (decodeElev s) = false → belowCond (decodeElev s) = false →
      nearCond (decodeElev s) = true → mapElevation (some s) = some .nearTreeline) ∧
    (∀ s : Str, aboveCond (decodeElev s) = false → belowCond (decodeElev s) = false →
      nearCond (decodeElev s) = false → mapElevation (some s) = none) ∧
    mapElevation (some (strOf "&#62;TL")) = some .aboveTreeline ∧
    mapElevation (some (strOf "&#60;TL")) = some .belowTreeline ∧
    mapElevation (some (strOf "TL")) = some .nearTreeline ∧
    mapElevation (some (strOf "unknown")) = none := by
  refine ⟨rfl, rfl, ?_, ?_, ?_, ?_, ?_, by decide, by decide, by decide, by decide⟩
  · intro s h1 _
    by_cases hs : s = []
    · subst hs; exact absurd h1 (by decide)
    · simp [mapElevation, hs, h1]
  · intro s h1
    by_cases hs : s = []
    · subst hs; exact absurd h1 (by decide)
    · simp [mapElevation, hs, h1]
  · intro s h1 h2
    by_cases hs : s = []
    · subst hs; exact absurd h2 (by decide)
    · simp [mapElevation, hs, h1, h2]
  · intro s h1 h2 h3
    by_cases hs : s = []
    · subst hs; exact absurd h3 (by decide)
    · simp [mapElevation, hs, h1, h2, h3]
  · intro s h1 h2 h3
    by_cases hs : s = []
    · subst hs; rfl
    · simp [mapElevation, hs, h1, h2, h3]

/-- C4 witness: `"<TL ALPINE"` decodes to a string carrying both an
above-marker and a below-marker and classifies above. -/
theorem mapElevation_spec_witness :
    aboveCond (decodeElev (strOf "<TL ALPINE")) = true ∧
    belowCond (decodeElev (strOf "<TL ALPINE")) = true ∧
    mapElevation (some (strOf "<TL ALPINE")) = some .aboveTreeline :=
  ⟨by decide, by decide, mapElevation_spec.2.2.1 _ (by decide) (by decide)⟩

/-- C6: the instability classifier never leaves the five-level range:
null and empty input yield `None`, the lowercased input is otherwise
tested keyword group by keyword group in severity order exactly as the
spec describes (`specInstability`), and unrecognized text falls back to
`None`. -/
theorem mapInstabilityLevel_matches_spec :
    (∀ v : Option Str, mapInstabilityLevel v = specInstability v) ∧
    mapInstabilityLevel none = .None ∧
    mapInstabilityLevel (some []) = .None ∧
    mapInstabilityLevel (some (strOf "widespread collapsing")) = .Severe ∧
    mapInstabilityLevel (some (strOf "unrecognized text")) = .None := by
  refine ⟨?_, rfl, by decide, by decide, by decide⟩
  intro v
  rcases v with _ | s
  · rfl
  · by_cases hs : s = []
    · subst hs; decide
    · simp only [mapInstabilityLevel, specInstability, if_neg hs]

/-- C9: the classifiers and both report folds are total functions with
defined terminal cases: null, empty and pure-whitespace classifier
inputs land on `none` (unclassified) or `None`, every classifier output
is one of the declared cases, and reports with all optional fields
missing aggregate and collect without error. -/
theorem core_totality_terminal_cases :
    mapElevation none = none ∧
    mapElevation (some []) = none ∧
    mapElevation (some (strOf "   ")) = none ∧
    mapAspect none = none ∧
    mapAspect (some []) = none ∧
    mapAspect (some (strOf "   ")) = none ∧
    mapInstabilityLevel none = LevelK.None ∧
    mapInstabilityLevel (some []) = LevelK.None ∧
    mapInstabilityLevel (some (strOf "   ")) = LevelK.None ∧
    (∀ v : Option Str,
      mapInstabilityLevel v = LevelK.None ∨
      mapInstabilityLevel v = LevelK.Minor ∨
      mapInstabilityLevel v = LevelK.Moderate ∨
      mapInstabilityLevel v = LevelK.Major ∨
      mapInstabilityLevel v = LevelK.Severe) ∧
    aggregateReports [] = initAgg 0 ∧
    collectTexts [] = ⟨[], [], []⟩ ∧
    aggregateReports [emptyReport] =
      ⟨1, 0, 0, ⟨0, 0, 0⟩, ⟨0, 0, 0, 0, 0, 0, 0, 0⟩, ⟨1, 0, 0, 0, 0⟩,
        ⟨1, 0, 0, 0, 0⟩⟩ ∧
    collectTexts [emptyReport] = ⟨[], [], []⟩ := by
  refine ⟨rfl, by decide, by decide, rfl, by decide, by decide, rfl, by decide,
    by decide, ?_, by decide, rfl, by decide, by decide⟩
  intro v
  rcases mapInstabilityLevel v with _ | _ | _ | _ | _ <;> simp

set_option maxRecDepth 4000

theorem find?_aspectOrder (p : AspectK → Bool) :
    (∀ a, aspectOrder.find? p = some a ↔
      (p a = true ∧ ∀ b, prioA b < prioA a → p b = false)) ∧
    (aspectOrder.find? p = none ↔ ∀ b, p b = false) := by
  revert p; decide

theorem aspectHit_empty (a : AspectK) : aspectHit [] a = false := by
  cases a <;> decide

/-- C5 (amended): `mapAspect` checks the two-letter codes before the
single-letter codes, and a code matches exactly when the uppercased,
trimmed input equals it or contains it as a whole-word occurrence
bounded by non-word characters (letters, digits and underscore are word
characters) or string edges; no match yields `none`.  The spec's four
concrete examples hold. -/
theorem mapAspect_word_boundary_spec :
    (∀ (s : Str) (a : AspectK),
        mapAspect (some s) = some a ↔
          MatchesAspect a (trimStr (toUpperStr s)) ∧
            ∀ b, prioA b < prioA a →
              ¬ MatchesAspect b (trimStr (toUpperStr s))) ∧
    (∀ s : Str, mapAspect (some s) = none ↔
        ∀ a, ¬ MatchesAspect a (trimStr (toUpperStr s))) ∧
    mapAspect (some (strOf "NW")) = some .NW ∧
    mapAspect (some (strOf "N")) = some .N ∧
    mapAspect (some (strOf "N facing")) = some .N ∧
    mapAspect (some (strOf "northeast facing")) = none := by
  refine ⟨?_, ?_, by decide, by decide, by decide, by decide⟩
  · intro s a
    by_cases hs : s = []
    · subst hs
      constructor
      · intro h; simp [mapAspect] at h
      · rintro ⟨hm, -⟩
        exact absurd ((aspectHit_iff a []).mpr hm) (by simp [aspectHit_empty])
    · have hm : mapAspect (some s) =
          aspectOrder.find? (aspectHit (trimStr (toUpperStr s))) := by
        simp [mapAspect, hs]
      rw [hm, (find?_aspectOrder (aspectHit (trimStr (toUpperStr s)))).1 a]
      constructor
      · rintro ⟨h1, h2⟩
        refine ⟨(aspectHit_iff a _).mp h1, fun b hb hmb => ?_⟩
        have hf := h2 b hb
        rw [(aspectHit_iff b _).mpr hmb] at hf
        cases hf
      · rintro ⟨h1, h2⟩
        refine ⟨(aspectHit_iff a _).mpr h1, fun b hb => ?_⟩
        cases hhit : aspectHit (trimStr (toUpperStr s)) b
        · rfl
        · exact absurd ((aspectHit_iff b _).mp hhit) (h2 b hb)
  · intro s
    by_cases hs : s = []
    · subst hs
      constructor
      · intro _ a hm
        exact absurd ((aspectHit_iff a []).mpr hm) (by simp [aspectHit_empty])
      · intro _; rfl
    · have hm : mapAspect (some s) =
          aspectOrder.find? (aspectHit (trimStr (toUpperStr s))) := by
        simp [mapAspect, hs]
      rw [hm, (find?_aspectOrder (aspectHit (trimStr (toUpperStr s)))).2]
      constructor
      · intro h a hmb
        have hf := h a
        rw [(aspectHit_iff a _).mpr hmb] at hf
        cases hf
      · intro h a
        cases hhit : aspectHit (trimStr (toUpperStr s)) a
        · rfl
        · exact absurd ((aspectHit_iff a _).mp hhit) (h a)

/-- C5 counterexample: on `"N2"` the claimed non-letter boundary rule
(`specAspectClaim`, with the digit `2` as a boundary) classifies `N`,
but the code's regex word boundary treats the digit as a word character
and `mapAspect` returns `none`; the claim as stated therefore fails. -/
theorem mapAspect_nonletter_counterexample :
    mapAspect (some (strOf "N2")) = none ∧
    specAspectClaim (some (strOf "N2")) = some AspectK.N ∧
    WholeWordOcc letterChar (aspectCode AspectK.N)
      (trimStr (toUpperStr (strOf "N2"))) :=
  ⟨by decide, by decide, ⟨[], strOf "2", by decide, by decide, by decide⟩⟩

theorem head_dropWhile_false (p : Char → Bool) :
    ∀ (l : Str) (c : Char) (rest : Str),
      List.dropWhile p l = c :: rest → p c = false := by
  intro l
  induction l with
  | nil => intro c rest h; simp [List.dropWhile] at h
  | cons x xs ih =>
    intro c rest h
    by_cases hx : p x
    · rw [List.dropWhile_cons, if_pos hx] at h
      exact ih c rest h
    · rw [List.dropWhile_cons, if_neg hx] at h
      cases h
      exact Bool.eq_false_iff.mpr hx

theorem dropWhile_trimStr (s : Str) :
    List.dropWhile Char.isWhitespace (trimStr s) = trimStr s := by
  rcases hu : trimStr s with _ | ⟨c, u'⟩
  · rfl
  · have hpre : trimStr s <+: List.dropWhile Char.isWhitespace s := by
      rw [← List.reverse_suffix]
      have hsfx := List.dropWhile_suffix
        (l := (List.dropWhile Char.isWhitespace s).reverse) Char.isWhitespace
      unfold trimStr
      simpa using hsfx
    rcases hpre with ⟨w, hw⟩
    rw [hu] at hw
    have hc : Char.isWhitespace c = false := by
      apply head_dropWhile_false Char.isWhitespace s c (u' ++ w)
      rw [← hw]
      simp
    rw [List.dropWhile_cons, if_neg (by simp [hc])]

theorem trimStr_idem (s : Str) : trimStr (trimStr s) = trimStr s := by
  have h1 : trimStr (trimStr s) =
      ((List.dropWhile Char.isWhitespace
        (trimStr s)).reverse.dropWhile Char.isWhitespace).reverse := rfl
  rw [h1, dropWhile_trimStr s]
  have h2 : (trimStr s).reverse =
      List.dropWhile Char.isWhitespace
        (List.dropWhile Char.isWhitespace s).reverse := by
    unfold trimStr
    simp
  rw [h2, List.dropWhile_idempotent]
  rfl

theorem pushIfPresent_split (arr : List Str) (t : Option Str) :
    pushIfPresent arr t = arr ++ pushIfPresent [] t := by
  rcases t with _ | v
  · simp [pushIfPresent]
  · by_cases h : trimStr v = [] <;> simp [pushIfPresent, h]

theorem pushIfPresent_mem (arr : List Str) (t : Option Str) :
    ∀ x ∈ pushIfPresent arr t, x ∈ arr ∨ TrimmedNonEmpty x := by
  intro x hx
  rcases t with _ | v
  · exact Or.inl hx
  · by_cases h : trimStr v = []
    · simp [pushIfPresent, h] at hx
      exact Or.inl hx
    · simp [pushIfPresent, h] at hx
      rcases hx with hx | hx
      · exact Or.inl hx
      · exact Or.inr ⟨hx ▸ h, hx ▸ trimStr_idem v⟩

theorem foldl_push_mem {α : Type} (g : α → Option Str) :
    ∀ (obs : List α) (arr : List Str),
      ∀ x ∈ obs.foldl (fun acc o => pushIfPresent acc (g o)) arr,
        x ∈ arr ∨ TrimmedNonEmpty x := by
  intro obs
  induction obs with
  | nil => intro arr x hx; exact Or.inl hx
  | cons o rest ih =>
    intro arr x hx
    rw [List.foldl_cons] at hx
    rcases ih (pushIfPresent arr (g o)) x hx with h | h
    · exact pushIfPresent_mem arr (g o) x h
    · exact Or.inr h

theorem extractComments_mem {α : Type} (g : α → Option Str)
    (arr : List Str) (observations : Option (List α)) :
    ∀ x ∈ extractComments g arr observations, x ∈ arr ∨ TrimmedNonEmpty x := by
  intro x hx
  exact foldl_push_mem g (observations.getD []) arr x hx

theorem collectStep_obs_mem (acc : CollectedTexts) (r : FieldReport) :
    ∀ x ∈ (collectStep acc r).observations,
      x ∈ acc.observations ∨ TrimmedNonEmpty x := by
  intro x hx
  exact pushIfPresent_mem acc.observations _ x hx

theorem collectStep_snow_mem (acc : CollectedTexts) (r : FieldReport) :
    ∀ x ∈ (collectStep acc r).snowpack,
      x ∈ acc.snowpack ∨ TrimmedNonEmpty x := by
  intro x hx
  rcases extractComments_mem SnowpackObservation.comments _ _ x hx with h | h
  · exact pushIfPresent_mem acc.snowpack _ x h
  · exact Or.inr h

theorem collectStep_weather_mem (acc : CollectedTexts) (r : FieldReport) :
    ∀ x ∈ (collectStep acc r).weather,
      x ∈ acc.weather ∨ TrimmedNonEmpty x := by
  intro x hx
  rcases extractComments_mem WeatherObservation.comments _ _ x hx with h | h
  · exact pushIfPresent_mem acc.weather _ x h
  · exact Or.inr h

theorem collectTexts_fold_mem (reports : List FieldReport) :
    ∀ acc : CollectedTexts,
      (∀ x ∈ (reports.foldl collectStep acc).observations,
        x ∈ acc.observations ∨ TrimmedNonEmpty x) ∧
      (∀ x ∈ (reports.foldl collectStep acc).snowpack,
        x ∈ acc.snowpack ∨ TrimmedNonEmpty x) ∧
      (∀ x ∈ (reports.foldl collectStep acc).weather,
        x ∈ acc.weather ∨ TrimmedNonEmpty x) := by
  induction reports with
  | nil => intro acc; exact ⟨fun x hx => Or.inl hx, fun x hx => Or.inl hx,
      fun x hx => Or.inl hx⟩
  | cons r rest ih =>
    intro acc
    refine ⟨fun x hx => ?_, fun x hx => ?_, fun x hx => ?_⟩
    · rw [List.foldl_cons] at hx
      rcases (ih (collectStep acc r)).1 x hx with h | h
      · exact collectStep_obs_mem acc r x h
      · exact Or.inr h
    · rw [List.foldl_cons] at hx
      rcases (ih (collectStep acc r)).2.1 x hx with h | h
      · exact collectStep_snow_mem acc r x h
      · exact Or.inr h
    · rw [List.foldl_cons] at hx
      rcases (ih (collectStep acc r)).2.2 x hx with h | h
      · exact collectStep_weather_mem acc r x h
      · exact Or.inr h

theorem collectTexts_observations_decomp (reports : List FieldReport) :
    (collectTexts reports).observations = reports.flatMap obsTextContrib := by
  have key : ∀ (rs : List FieldReport) (acc : CollectedTexts),
      (rs.foldl collectStep acc).observations =
        acc.observations ++ rs.flatMap obsTextContrib := by
    intro rs
    induction rs with
    | nil => intro acc; simp
    | cons r rest ih =>
      intro acc
      rw [List.foldl_cons, ih]
      have hstep : (collectStep acc r).observations =
          acc.observations ++ obsTextContrib r := by
        show pushIfPresent acc.observations
          (jsStrOr r.observation_summary r.description) = _
        rw [pushIfPresent_split]
        rfl
      rw [hstep, List.flatMap_cons, List.append_assoc]
  exact key reports ⟨[], [], []⟩

/-- C7 (amended): per report, the observation collection receives the
trimmed `observation_summary` when that field is a non-empty string —
even a whitespace-only summary suppresses the description — and falls
back to the trimmed `description` exactly when `observation_summary` is
absent or the empty string (the JavaScript falsy test); at most one
string is emitted per report, and every retained string in all three
collections is non-empty and equal to its own trim. -/
theorem collectTexts_text_rules (reports : List FieldReport) :
    (collectTexts reports).observations = reports.flatMap obsTextContrib ∧
    (∀ (r : FieldReport) (s : Str), r.observation_summary = some s → s ≠ [] →
      obsTextContrib r = pushIfPresent [] (some s)) ∧
    (∀ r : FieldReport,
      r.observation_summary = none ∨ r.observation_summary = some [] →
      obsTextContrib r = pushIfPresent [] r.description) ∧
    (∀ r : FieldReport, (obsTextContrib r).length ≤ 1) ∧
    (∀ x ∈ (collectTexts reports).observations, TrimmedNonEmpty x) ∧
    (∀ x ∈ (collectTexts reports).snowpack, TrimmedNonEmpty x) ∧
    (∀ x ∈ (collectTexts reports).weather, TrimmedNonEmpty x) := by
  have hmem := collectTexts_fold_mem reports ⟨[], [], []⟩
  refine ⟨collectTexts_observations_decomp reports, ?_, ?_, ?_, ?_, ?_, ?_⟩
  · intro r s h hne
    unfold obsTextContrib jsStrOr
    rw [h]
    simp [hne]
  · rintro r (h | h)
    · unfold obsTextContrib jsStrOr
      rw [h]
    · unfold obsTextContrib jsStrOr
      rw [h]
      simp
  · intro r
    unfold obsTextContrib
    rcases jsStrOr r.observation_summary r.description with _ | v
    · simp [pushIfPresent]
    · by_cases h : trimStr v = [] <;> simp [pushIfPresent, h]
  · intro x hx
    rcases hmem.1 x hx with h | h
    · simp at h
    · exact h
  · intro x hx
    rcases hmem.2.1 x hx with h | h
    · simp at h
    · exact h
  · intro x hx
    rcases hmem.2.2 x hx with h | h
    · simp at h
    · exact h

/-- C7 counterexample: a report whose `observation_summary` is present
but empty, with a non-blank `description`, still emits the description
— the fallback is not restricted to an absent summary. -/
theorem collectTexts_empty_summary_counterexample :
    (collectTexts [{ emptyReport with
        observation_summary := some []
        description := some (strOf "desc text") }]).observations =
      [strOf "desc text"] ∧
    ({ emptyReport with
        observation_summary := some []
        description := some (strOf "desc text") } : FieldReport).observation_summary ≠
      none := by
  exact ⟨by decide, by decide⟩

/-- C7 witness: a report with no summary falls back to its description. -/
theorem collectTexts_text_rules_witness :
    obsTextContrib { emptyReport with description := some (strOf "d") } =
      pushIfPresent []
        ({ emptyReport with
            description := some (strOf "d") } : FieldReport).description :=
  (collectTexts_text_rules []).2.2.1 _ (Or.inl rfl)
